import Mathlib

/-!
Formal model of the HistData archive downloader
(`src/elpis_nautilus/data_downloaders/downloader_main.py`): the period
enumerator, the content-disposition filename parser, the archive fetcher,
the archive extractor with its cleanup, the run orchestrator, the
staging-directory guard and the HTTP-session singleton, together with
theorems settling the specification claims about them.
-/

namespace ElpisDownloader

/-- A Python `datetime` restricted to the fields the downloader reads.
A valid `datetime` has `1 ≤ month ≤ 12`. -/
structure PyDateTime where
  year : Nat
  month : Nat
  day : Nat
deriving DecidableEq

/-- The loop step `datetime(cur.year + (cur.month // 12), (cur.month % 12) + 1, 1)`
from `_year_month_range`, on `(year, month)` pairs (the day is always 1). -/
def ymNext (p : Nat × Nat) : Nat × Nat := (p.1 + p.2 / 12, p.2 % 12 + 1)

/-- Python comparison `datetime(y1, m1, 1) <= datetime(y2, m2, 1)`:
lexicographic on `(year, month)` since both days are 1. -/
def ymLe (a b : Nat × Nat) : Bool :=
  decide (a.1 < b.1 ∨ (a.1 = b.1 ∧ a.2 ≤ b.2))

/-- The `while cur <= end_marker` loop of `_year_month_range`, with an
explicit iteration bound (the bound supplied in `_year_month_range` below is
provably sufficient for valid months, see `yearMonthRangeAux_eq`). -/
def yearMonthRangeAux : Nat → Nat × Nat → Nat × Nat → List (Nat × Nat)
  | 0, _, _ => []
  | fuel + 1, cur, em =>
    if ymLe cur em then cur :: yearMonthRangeAux fuel (ymNext cur) em else []

/-- `_year_month_range(start, end)`: truncate both endpoints to month
granularity and enumerate `(year, month)` pairs while `cur <= end_marker`. -/
def _year_month_range (s e : PyDateTime) : List (Nat × Nat) :=
  yearMonthRangeAux (e.year * 12 + e.month + 1) (s.year, s.month) (e.year, e.month)

/-- Linear index of a calendar month (months since year 0, month 1). -/
def monthIdx (p : Nat × Nat) : Nat := p.1 * 12 + (p.2 - 1)

/-- The calendar month with a given linear index. -/
def idxToYM (n : Nat) : Nat × Nat := (n / 12, n % 12 + 1)

/-- Spec-side successor month: rolls month 12 over to month 1 of the next
year, otherwise increments the month. -/
def calNext (p : Nat × Nat) : Nat × Nat :=
  if p.2 = 12 then (p.1 + 1, 1) else (p.1, p.2 + 1)

lemma monthIdx_idxToYM (n : Nat) : monthIdx (idxToYM n) = n := by
  simp only [monthIdx, idxToYM]
  omega

lemma idxToYM_monthIdx (p : Nat × Nat) (h1 : 1 ≤ p.2) (h2 : p.2 ≤ 12) :
    idxToYM (monthIdx p) = p := by
  obtain ⟨y, m⟩ := p
  simp only [monthIdx, idxToYM, Prod.mk.injEq] at *
  constructor <;> omega

lemma idxToYM_valid (n : Nat) : 1 ≤ (idxToYM n).2 ∧ (idxToYM n).2 ≤ 12 := by
  simp only [idxToYM]
  omega

lemma ymNext_eq (p : Nat × Nat) (h1 : 1 ≤ p.2) (h2 : p.2 ≤ 12) :
    ymNext p = idxToYM (monthIdx p + 1) := by
  obtain ⟨y, m⟩ := p
  simp only [ymNext, idxToYM, monthIdx, Prod.mk.injEq] at *
  constructor <;> omega

lemma calNext_idxToYM (n : Nat) : calNext (idxToYM n) = idxToYM (n + 1) := by
  simp only [calNext, idxToYM]
  split_ifs with h <;> simp only [Prod.mk.injEq] <;> constructor <;> omega

lemma ymLe_iff (a b : Nat × Nat) (ha1 : 1 ≤ a.2) (ha2 : a.2 ≤ 12)
    (hb1 : 1 ≤ b.2) (hb2 : b.2 ≤ 12) :
    ymLe a b = true ↔ monthIdx a ≤ monthIdx b := by
  obtain ⟨y1, m1⟩ := a
  obtain ⟨y2, m2⟩ := b
  simp only [ymLe, monthIdx, decide_eq_true_eq] at *
  omega

/-- Closed form of the generator loop: for valid months and sufficient fuel
it enumerates exactly the months with linear indices
`monthIdx cur, …, monthIdx em`. -/
lemma yearMonthRangeAux_eq (fuel : Nat) :
    ∀ cur em : Nat × Nat, 1 ≤ cur.2 → cur.2 ≤ 12 → 1 ≤ em.2 → em.2 ≤ 12 →
    monthIdx em + 1 - monthIdx cur ≤ fuel →
    yearMonthRangeAux fuel cur em
      = (List.range' (monthIdx cur) (monthIdx em + 1 - monthIdx cur)).map idxToYM := by
  induction fuel with
  | zero =>
    intro cur em h1 h2 h3 h4 hf
    have hz : monthIdx em + 1 - monthIdx cur = 0 := by omega
    simp [yearMonthRangeAux, hz]
  | succ n ih =>
    intro cur em h1 h2 h3 h4 hf
    by_cases hg : ymLe cur em = true
    · have hle : monthIdx cur ≤ monthIdx em := (ymLe_iff cur em h1 h2 h3 h4).mp hg
      have hcount : monthIdx em + 1 - monthIdx cur
          = (monthIdx em + 1 - (monthIdx cur + 1)) + 1 := by omega
      have hnext : ymNext cur = idxToYM (monthIdx cur + 1) := ymNext_eq cur h1 h2
      have hv := idxToYM_valid (monthIdx cur + 1)
      have hidx : monthIdx (ymNext cur) = monthIdx cur + 1 := by
        rw [hnext, monthIdx_idxToYM]
      have hrec := ih (ymNext cur) em (by rw [hnext]; exact hv.1) (by rw [hnext]; exact hv.2)
        h3 h4 (by omega)
      rw [hidx] at hrec
      simp only [yearMonthRangeAux, hg, if_true, hrec, hcount, List.range']
      simp [idxToYM_monthIdx cur h1 h2, hnext]
    · have hlt : monthIdx em < monthIdx cur := by
        rcases Nat.lt_or_ge (monthIdx em) (monthIdx cur) with h | h
        · exact h
        · exact absurd ((ymLe_iff cur em h1 h2 h3 h4).mpr h) hg
      have hz : monthIdx em + 1 - monthIdx cur = 0 := by omega
      simp only [yearMonthRangeAux, hz]
      rw [if_neg (by simpa using hg)]
      simp

/-- Closed form of `_year_month_range` for valid endpoints. -/
lemma year_month_range_eq (s e : PyDateTime)
    (hs1 : 1 ≤ s.month) (hs2 : s.month ≤ 12) (he1 : 1 ≤ e.month) (he2 : e.month ≤ 12) :
    _year_month_range s e
      = (List.range' (monthIdx (s.year, s.month))
          (monthIdx (e.year, e.month) + 1 - monthIdx (s.year, s.month))).map idxToYM := by
  apply yearMonthRangeAux_eq <;> simp only [monthIdx] <;> omega

lemma range'_map_chain (n : Nat) : ∀ a : Nat,
    List.Chain' (fun x y => y = calNext x) ((List.range' a n).map idxToYM) := by
  induction n with
  | zero => intro a; simp [List.range']
  | succ m ih =>
    intro a
    simp only [List.range', List.map_cons]
    rw [List.chain'_cons']
    refine ⟨?_, ih (a + 1)⟩
    intro b hb
    cases m with
    | zero => simp [List.range'] at hb
    | succ k =>
      simp only [List.range', List.map_cons, List.head?_cons, Option.mem_def,
        Option.some.injEq] at hb
      rw [← hb, calNext_idxToYM]

lemma range'_map_getLast (n : Nat) : ∀ a : Nat,
    ((List.range' a (n + 1)).map idxToYM).getLast? = some (idxToYM (a + n)) := by
  induction n with
  | zero => intro a; simp [List.range']
  | succ m ih =>
    intro a
    have hstep : (List.range' a (m + 2)).map idxToYM
        = idxToYM a :: (List.range' (a + 1) (m + 1)).map idxToYM := by
      simp [List.range']
    rw [hstep]
    have htail : (List.range' (a + 1) (m + 1)).map idxToYM
        = idxToYM (a + 1) :: (List.range' (a + 2) m).map idxToYM := by
      simp [List.range']
    rw [htail, List.getLast?_cons_cons, ← htail, ih (a + 1)]
    have harith : a + 1 + m = a + (m + 1) := by omega
    rw [harith]

/-- Claim C1: for valid datetimes, after truncation to month granularity the
period enumerator `_year_month_range` yields, when `start ≤ end`, exactly
`(end.year*12+end.month) - (start.year*12+start.month) + 1` pairs, beginning
at the start month and ending at the end month, each successive pair being
the next calendar month (strictly increasing, no duplicate or skipped month,
month 12 rolling over to month 1 of the next year); and when `start > end`
it yields the empty sequence. -/
theorem c1_year_month_range (s e : PyDateTime)
    (hs1 : 1 ≤ s.month) (hs2 : s.month ≤ 12) (he1 : 1 ≤ e.month) (he2 : e.month ≤ 12) :
    (s.year * 12 + s.month ≤ e.year * 12 + e.month →
        (_year_month_range s e).length
          = (e.year * 12 + e.month) - (s.year * 12 + s.month) + 1
      ∧ (_year_month_range s e).head? = some (s.year, s.month)
      ∧ (_year_month_range s e).getLast? = some (e.year, e.month))
    ∧ List.Chain' (fun x y => y = calNext x) (_year_month_range s e)
    ∧ (e.year * 12 + e.month < s.year * 12 + s.month → _year_month_range s e = []) := by
  have heq := year_month_range_eq s e hs1 hs2 he1 he2
  refine ⟨?_, ?_, ?_⟩
  · intro hle
    have hle' : monthIdx (s.year, s.month) ≤ monthIdx (e.year, e.month) := by
      simp only [monthIdx]; omega
    have hcount : monthIdx (e.year, e.month) + 1 - monthIdx (s.year, s.month)
        = ((e.year * 12 + e.month) - (s.year * 12 + s.month)) + 1 := by
      simp only [monthIdx]; omega
    refine ⟨?_, ?_, ?_⟩
    · rw [heq, List.length_map, List.length_range', hcount]
    · rw [heq, hcount]
      simp only [List.range', List.map_cons, List.head?_cons]
      rw [idxToYM_monthIdx (s.year, s.month) (by simpa using hs1) (by simpa using hs2)]
    · rw [heq, hcount, range'_map_getLast]
      have : monthIdx (s.year, s.month) + ((e.year * 12 + e.month) - (s.year * 12 + s.month))
          = monthIdx (e.year, e.month) := by
        simp only [monthIdx]; omega
      rw [this, idxToYM_monthIdx (e.year, e.month) (by simpa using he1) (by simpa using he2)]
  · rw [heq]; exact range'_map_chain _ _
  · intro hlt
    have hz : monthIdx (e.year, e.month) + 1 - monthIdx (s.year, s.month) = 0 := by
      simp only [monthIdx]; omega
    rw [heq, hz]
    simp [List.range']

/-- Witness for C1 at start = 2021-12-15, end = 2022-01-05 (and the empty
case at start = 2022-02-01, end = 2022-01-05). -/
theorem c1_year_month_range_witness :
    ((_year_month_range ⟨2021, 12, 15⟩ ⟨2022, 1, 5⟩).length
        = (2022 * 12 + 1) - (2021 * 12 + 12) + 1
      ∧ (_year_month_range ⟨2021, 12, 15⟩ ⟨2022, 1, 5⟩).head? = some (2021, 12)
      ∧ (_year_month_range ⟨2021, 12, 15⟩ ⟨2022, 1, 5⟩).getLast? = some (2022, 1))
    ∧ List.Chain' (fun x y => y = calNext x) (_year_month_range ⟨2021, 12, 15⟩ ⟨2022, 1, 5⟩)
    ∧ _year_month_range ⟨2022, 2, 1⟩ ⟨2022, 1, 5⟩ = [] :=
  ⟨(c1_year_month_range ⟨2021, 12, 15⟩ ⟨2022, 1, 5⟩
      (by decide) (by decide) (by decide) (by decide)).1 (by decide),
   (c1_year_month_range ⟨2021, 12, 15⟩ ⟨2022, 1, 5⟩
      (by decide) (by decide) (by decide) (by decide)).2.1,
   (c1_year_month_range ⟨2022, 2, 1⟩ ⟨2022, 1, 5⟩
      (by decide) (by decide) (by decide) (by decide)).2.2 (by decide)⟩

/-! Python string primitives used by the downloader. -/

/-- The characters Python `str.strip()` removes. -/
def isPySpace (c : Char) : Bool :=
  c = ' ' || c = '\t' || c = '\n' || c = '\r' || c = Char.ofNat 11 || c = Char.ofNat 12

/-- Python `str.strip(chars)`: drop characters satisfying `p` from both ends. -/
def pyStrip (p : Char → Bool) (s : List Char) : List Char :=
  ((s.dropWhile p).reverse.dropWhile p).reverse

/-- Python `str.strip()` on a `String`. -/
def pyStripWs (s : String) : String :=
  String.mk (pyStrip isPySpace s.toList)

/-- Python `str.lower()` (ASCII case folding, as in the headers at hand). -/
def pyLower (s : String) : String :=
  String.mk (s.toList.map Char.toLower)

/-- Python `str.endswith(suffix)`. -/
def pyEndsWith (s suffix : String) : Bool :=
  suffix.toList.reverse.isPrefixOf s.toList.reverse

/-- Contiguous-sublist test: does `needle` occur in `hay`? -/
def listContains (needle : List Char) : List Char → Bool
  | [] => needle.isEmpty
  | c :: rest => needle.isPrefixOf (c :: rest) || listContains needle rest

/-- Python `needle in hay` substring containment. -/
def pyIn (needle hay : String) : Bool :=
  listContains needle.toList hay.toList

/-- The literal part of the regex `filename=([^;]+)`: the characters of
`"filename="`. -/
def filenameKey : List Char := ['f', 'i', 'l', 'e', 'n', 'a', 'm', 'e', '=']

/-- `re.search(r"filename=([^;]+)", s)`: scan left to right for the first
position where `filename=` matches followed by at least one non-`;`
character; the group is the maximal run of non-`;` characters there. -/
def searchFilename : List Char → Option (List Char)
  | [] => none
  | c :: rest =>
    if filenameKey.isPrefixOf (c :: rest) then
      let g := ((c :: rest).drop filenameKey.length).takeWhile (fun ch => ch != ';')
      if g.isEmpty then searchFilename rest else some g
    else searchFilename rest

/-- `_extract_filename(content_disposition)`: regex-search for a
`filename=` parameter, then `match.group(1).strip().strip('"')`;
`None` when the regex does not match. -/
def _extract_filename (s : String) : Option String :=
  match searchFilename s.toList with
  | some g => some (String.mk (pyStrip (fun c => c == '"') (pyStrip isPySpace g)))
  | none => none

/-! Model of `_fetch_zip`. The HTTP session and the HTML parse are external
collaborators; their behaviour for the one GET and the one POST a call
performs is an oracle input (`FetchEnv`). -/

/-- The parse of the listing page: the `<form id="file_down">` payload
(named inputs) when present, and the `<a id="a_file">` anchor text when
present. -/
structure ParsedPage where
  form : Option (List (String × String))
  a_file : Option String
deriving DecidableEq

/-- Behaviour of `sess.get` on the listing page: either it raises a
`RequestException`, or it returns a response whose `raise_for_status`
succeeds (`ok = true`) or raises (`ok = false`), with the given parse. -/
inductive GetOutcome
  | raises
  | page (ok : Bool) (parsed : ParsedPage)
deriving DecidableEq

/-- Behaviour of the download POST: either it raises, or it returns a
response with the given `raise_for_status` outcome, `Content-Type` header,
`Content-Disposition` header and body chunks. -/
inductive PostOutcome
  | raises
  | resp (ok : Bool) (ctype : String) (disp : String) (chunks : List String)
deriving DecidableEq

/-- Oracle for one `_fetch_zip` call. -/
structure FetchEnv where
  get : GetOutcome
  post : PostOutcome
deriving DecidableEq

/-- Observable outcome of `_fetch_zip`: an `UnboundLocalError` escaping to
the caller, a normal `None` return, or a returned path `dest/fname` whose
file was written with `content`. -/
inductive FetchOutcome
  | excUnboundLocal
  | failure
  | success (fname : String) (content : String)
deriving DecidableEq

/-- The bytes streamed to disk: concatenation of the non-empty chunks
(`if chunk: fh.write(chunk)`). -/
def joinChunks (chunks : List String) : String :=
  String.join (chunks.filter (fun c => !c.isEmpty))

/-- The tail of `_fetch_zip` from the POST on: `zipName` is the state of the
local variable `zip_name` (`none` when the form branch left it unbound). -/
def fetchPost (env : FetchEnv) (zipName : Option String) : FetchOutcome :=
  match env.post with
  | .raises => .failure
  | .resp ok ctype disp chunks =>
    if !ok then .failure
    else if pyIn "html" (pyLower ctype) || !(pyIn "zip" (pyLower disp)) then .failure
    else
      let fname? : Option String :=
        match _extract_filename disp with
        | some s => if s.isEmpty then zipName else some s
        | none => zipName
      match fname? with
      | none => .excUnboundLocal
      | some fname => .success fname (joinChunks chunks)

/-- `_fetch_zip(symbol, year, month, dest)` under oracle `env`. -/
def _fetch_zip (env : FetchEnv) : FetchOutcome :=
  match env.get with
  | .raises => .failure
  | .page ok parsed =>
    if !ok then .failure
    else
      match parsed.form with
      | some _payload => fetchPost env none
      | none =>
        match parsed.a_file with
        | none => .failure
        | some txt =>
          if pyEndsWith (pyLower (pyStripWs txt)) ".zip" then
            fetchPost env (some (pyStripWs txt))
          else .failure

/-- The files `_fetch_zip` wrote, as (name, content) pairs. -/
def filesWritten : FetchOutcome → List (String × String)
  | .success f c => [(f, c)]
  | _ => []

lemma fetchPost_raises (env : FetchEnv) (zn : Option String) (h : env.post = .raises) :
    fetchPost env zn = .failure := by
  simp [fetchPost, h]

lemma fetchPost_not_ok (env : FetchEnv) (zn : Option String) (ctype disp : String)
    (chunks : List String) (h : env.post = .resp false ctype disp chunks) :
    fetchPost env zn = .failure := by
  simp [fetchPost, h]

lemma fetchPost_bad_headers (env : FetchEnv) (zn : Option String) (ctype disp : String)
    (chunks : List String) (h : env.post = .resp true ctype disp chunks)
    (hbad : pyIn "html" (pyLower ctype) = true ∨ pyIn "zip" (pyLower disp) = false) :
    fetchPost env zn = .failure := by
  rcases hbad with hb | hb <;> simp [fetchPost, h, hb]

/-- Every `_fetch_zip` outcome is either a pre-POST failure or the outcome of
the POST tail with some `zip_name` state. -/
lemma fetch_zip_cases (env : FetchEnv) :
    _fetch_zip env = .failure ∨ ∃ zn, _fetch_zip env = fetchPost env zn := by
  rcases env with ⟨g, p⟩
  cases g with
  | raises => exact Or.inl rfl
  | page ok parsed =>
    cases ok with
    | false => exact Or.inl rfl
    | true =>
      rcases parsed with ⟨form, af⟩
      cases form with
      | some payload => exact Or.inr ⟨none, rfl⟩
      | none =>
        cases af with
        | none => exact Or.inl rfl
        | some txt =>
          by_cases hz : pyEndsWith (pyLower (pyStripWs txt)) ".zip" = true
          · exact Or.inr ⟨some (pyStripWs txt), by simp [_fetch_zip, hz]⟩
          · exact Or.inl (by simp [_fetch_zip, hz])

/-- Claim C3: `_fetch_zip` returns `None` (and writes no file) whenever the
listing GET raises or returns a non-success status, the page has neither the
`file_down` form nor an `a_file` anchor whose text ends in `.zip`, the POST
raises or returns non-success, or the POST response's content type mentions
`html` or its content-disposition does not mention `zip`; a file is written
only on the success path. -/
theorem c3_fetch_zip_failure_paths (env : FetchEnv) :
    (env.get = .raises → _fetch_zip env = .failure)
  ∧ (∀ parsed, env.get = .page false parsed → _fetch_zip env = .failure)
  ∧ (∀ parsed, env.get = .page true parsed → parsed.form = none →
      (parsed.a_file = none ∨
        ∀ txt, parsed.a_file = some txt →
          pyEndsWith (pyLower (pyStripWs txt)) ".zip" = false) →
      _fetch_zip env = .failure)
  ∧ (env.post = .raises → _fetch_zip env = .failure)
  ∧ (∀ ctype disp chunks, env.post = .resp false ctype disp chunks →
      _fetch_zip env = .failure)
  ∧ (∀ ctype disp chunks, env.post = .resp true ctype disp chunks →
      (pyIn "html" (pyLower ctype) = true ∨ pyIn "zip" (pyLower disp) = false) →
      _fetch_zip env = .failure)
  ∧ ((∀ f c, _fetch_zip env ≠ .success f c) → filesWritten (_fetch_zip env) = []) := by
  refine ⟨?_, ?_, ?_, ?_, ?_, ?_, ?_⟩
  · intro h
    simp [_fetch_zip, h]
  · intro parsed h
    simp [_fetch_zip, h]
  · intro parsed hget hform haf
    rcases haf with haf | haf
    · simp [_fetch_zip, hget, hform, haf]
    · rcases hcase : parsed.a_file with _ | txt
      · simp [_fetch_zip, hget, hform, hcase]
      · simp [_fetch_zip, hget, hform, hcase, haf txt hcase]
  · intro h
    rcases fetch_zip_cases env with hc | ⟨zn, hc⟩
    · exact hc
    · rw [hc]
      exact fetchPost_raises env zn h
  · intro ctype disp chunks h
    rcases fetch_zip_cases env with hc | ⟨zn, hc⟩
    · exact hc
    · rw [hc]
      exact fetchPost_not_ok env zn ctype disp chunks h
  · intro ctype disp chunks h hbad
    rcases fetch_zip_cases env with hc | ⟨zn, hc⟩
    · exact hc
    · rw [hc]
      exact fetchPost_bad_headers env zn ctype disp chunks h hbad
  · intro h
    rcases ho : _fetch_zip env with _ | _ | ⟨f, c⟩
    · rfl
    · rfl
    · exact absurd ho (h f c)

/-- Witness for C3: a run whose listing GET raises returns `None`. -/
theorem c3_fetch_zip_failure_paths_witness :
    _fetch_zip ⟨.raises, .raises⟩ = .failure :=
  (c3_fetch_zip_failure_paths ⟨.raises, .raises⟩).1 rfl

/-- Claim C2 is refuted by the code: with the `file_down` form present (form
branch, so the local `zip_name` is never assigned) and a successful POST
whose content-disposition mentions `zip` but carries no parsable
`filename=` parameter, line 193 (`_extract_filename(disp) or zip_name`)
evaluates the unbound local `zip_name` and an `UnboundLocalError` escapes to
the caller instead of a normal return. -/
theorem c2_fetch_zip_unbound_local :
    _fetch_zip ⟨.page true ⟨some [], none⟩,
      .resp true "application/zip" "attachment; zipdata" []⟩
      = .excUnboundLocal := by
  decide

lemma toList_eq_data (s : String) : s.toList = s.data := rfl

lemma mk_data (s : String) : String.mk s.data = s := rfl

lemma key_not_prefix_of (c : Char) (rest : List Char) (h : c ≠ 'f') :
    filenameKey.isPrefixOf (c :: rest) = false := by
  have hc : ('f' == c) = false := beq_eq_false_iff_ne.mpr (fun he => h he.symm)
  simp [filenameKey, List.isPrefixOf, hc]

lemma searchFilename_cons_skip (c : Char) (rest : List Char)
    (h : filenameKey.isPrefixOf (c :: rest) = false) :
    searchFilename (c :: rest) = searchFilename rest := by
  simp [searchFilename, h]

lemma searchFilename_append_skip (pre rest : List Char)
    (h : ∀ c ∈ pre, c ≠ 'f') :
    searchFilename (pre ++ rest) = searchFilename rest := by
  induction pre with
  | nil => rfl
  | cons c cs ih =>
    rw [List.cons_append,
      searchFilename_cons_skip _ _ (key_not_prefix_of c _ (h c (by simp))),
      ih (fun d hd => h d (by simp [hd]))]

lemma isPrefixOf_append (l t : List Char) : l.isPrefixOf (l ++ t) = true := by
  induction l with
  | nil => simp [List.isPrefixOf]
  | cons c cs ih => simp [List.isPrefixOf, ih]

lemma searchFilename_key (tail : List Char)
    (hne : tail.takeWhile (fun ch => ch != ';') ≠ []) :
    searchFilename (filenameKey ++ tail)
      = some (tail.takeWhile (fun ch => ch != ';')) := by
  have hp : filenameKey.isPrefixOf ('f' :: (['i', 'l', 'e', 'n', 'a', 'm', 'e', '='] ++ tail))
      = true := isPrefixOf_append filenameKey tail
  have hdrop : ('f' :: (['i', 'l', 'e', 'n', 'a', 'm', 'e', '='] ++ tail)).drop
      filenameKey.length = tail := List.drop_left filenameKey tail
  show searchFilename ('f' :: (['i', 'l', 'e', 'n', 'a', 'm', 'e', '='] ++ tail)) = _
  simp only [searchFilename, hp, if_true, hdrop]
  rw [if_neg]
  simpa [List.isEmpty_iff] using hne

lemma takeWhile_append_all (p : Char → Bool) (l₁ l₂ : List Char)
    (h : ∀ c ∈ l₁, p c = true) :
    (l₁ ++ l₂).takeWhile p = l₁ ++ l₂.takeWhile p := by
  induction l₁ with
  | nil => simp
  | cons c cs ih =>
    simp [List.takeWhile_cons, h c (by simp), ih (fun d hd => h d (by simp [hd]))]

lemma takeWhile_semi_nil (t : List Char) (ht : t = [] ∨ ∃ t', t = ';' :: t') :
    t.takeWhile (fun ch => ch != ';') = [] := by
  rcases ht with rfl | ⟨t', rfl⟩
  · rfl
  · simp [List.takeWhile_cons]

lemma dropWhile_head_false (p : Char → Bool) (l : List Char)
    (h : ∀ c ∈ l, p c = false) : l.dropWhile p = l := by
  cases l with
  | nil => rfl
  | cons c cs => simp [List.dropWhile_cons, h c (by simp)]

lemma pyStrip_id (p : Char → Bool) (l : List Char)
    (h : ∀ c ∈ l, p c = false) : pyStrip p l = l := by
  unfold pyStrip
  rw [dropWhile_head_false p l h,
    dropWhile_head_false p l.reverse (fun c hc => h c (List.mem_reverse.mp hc)),
    List.reverse_reverse]

lemma pyStrip_quotes (v : List Char) (hne : v ≠ []) (hq : ∀ c ∈ v, c ≠ '"') :
    pyStrip (fun c => c == '"') ('"' :: (v ++ ['"'])) = v := by
  unfold pyStrip
  have h1 : ('"' :: (v ++ ['"'])).dropWhile (fun c => c == '"') = v ++ ['"'] := by
    rcases v with _ | ⟨c, v'⟩
    · exact absurd rfl hne
    · have hc : (c == '"') = false := beq_eq_false_iff_ne.mpr (hq c (by simp))
      simp [List.dropWhile_cons, hc]
  rw [h1, show (v ++ ['"']).reverse = '"' :: v.reverse by simp]
  rw [show ('"' :: v.reverse).dropWhile (fun c => c == '"')
      = v.reverse.dropWhile (fun c => c == '"') by simp [List.dropWhile_cons]]
  rw [dropWhile_head_false _ _
    (fun c hc => beq_eq_false_iff_ne.mpr (hq c (List.mem_reverse.mp hc))),
    List.reverse_reverse]

/-- The characters of `"attachment; "`, the part of the tested disposition
strings before the `filename=` parameter. -/
def dispPre : List Char := ['a', 't', 't', 'a', 'c', 'h', 'm', 'e', 'n', 't', ';', ' ']

lemma search_quoted (v t : List Char) (hsemi : ∀ c ∈ v, c ≠ ';')
    (ht : t = [] ∨ ∃ t', t = ';' :: t') :
    searchFilename (dispPre ++ (filenameKey ++ ('"' :: (v ++ ('"' :: t)))))
      = some ('"' :: (v ++ ['"'])) := by
  have hgroup : ('"' :: (v ++ ('"' :: t))).takeWhile (fun ch => ch != ';')
      = '"' :: (v ++ ['"']) := by
    rw [List.takeWhile_cons, if_pos (by decide),
      takeWhile_append_all _ v _ (fun c hc => bne_iff_ne.mpr (hsemi c hc)),
      List.takeWhile_cons, if_pos (by decide), takeWhile_semi_nil t ht]
  rw [searchFilename_append_skip dispPre _ (by decide),
    searchFilename_key _ (by rw [hgroup]; simp), hgroup]

lemma search_unquoted (v t : List Char) (hne : v ≠ []) (hsemi : ∀ c ∈ v, c ≠ ';')
    (ht : t = [] ∨ ∃ t', t = ';' :: t') :
    searchFilename (dispPre ++ (filenameKey ++ (v ++ t))) = some v := by
  have hgroup : (v ++ t).takeWhile (fun ch => ch != ';') = v := by
    rw [takeWhile_append_all _ v _ (fun c hc => bne_iff_ne.mpr (hsemi c hc)),
      takeWhile_semi_nil t ht, List.append_nil]
  rw [searchFilename_append_skip dispPre _ (by decide),
    searchFilename_key _ (by rw [hgroup]; exact hne), hgroup]

lemma strip_quoted (v : List Char) (hne : v ≠ []) (hq : ∀ c ∈ v, c ≠ '"')
    (hsp : ∀ c ∈ v, isPySpace c = false) :
    pyStrip (fun c => c == '"') (pyStrip isPySpace ('"' :: (v ++ ['"']))) = v := by
  rw [pyStrip_id isPySpace _ ?hall]
  case hall =>
    intro c hc
    rcases (by simpa using hc : c = '"' ∨ c ∈ v ∨ c = '"') with rfl | hc | rfl
    · decide
    · exact hsp c hc
    · decide
  exact pyStrip_quotes v hne hq

lemma strip_plain (v : List Char) (hq : ∀ c ∈ v, c ≠ '"')
    (hsp : ∀ c ∈ v, isPySpace c = false) :
    pyStrip (fun c => c == '"') (pyStrip isPySpace v) = v := by
  rw [pyStrip_id isPySpace v hsp,
    pyStrip_id _ v (fun c hc => beq_eq_false_iff_ne.mpr (hq c hc))]

/-- Claim C4: `_extract_filename` returns the `filename=` parameter value
with surrounding whitespace and double quotes removed, in both the quoted
and the unquoted form, ignoring trailing `;`-separated parameters; and on a
successful fetch whose content-disposition is
`attachment; filename="f.zip"`, `_fetch_zip` returns the path named `f.zip`
with the streamed bytes written to it. -/
theorem c4_extract_filename_and_save (v t : String) (chunks : List String)
    (payload : List (String × String))
    (hne : v.data ≠ [])
    (hsemi : ∀ c ∈ v.data, c ≠ ';')
    (hq : ∀ c ∈ v.data, c ≠ '"')
    (hsp : ∀ c ∈ v.data, isPySpace c = false)
    (ht : t.data = [] ∨ ∃ t', t.data = ';' :: t') :
    _extract_filename ("attachment; filename=\"" ++ v ++ "\"" ++ t) = some v
  ∧ _extract_filename ("attachment; filename=" ++ v ++ t) = some v
  ∧ _fetch_zip ⟨.page true ⟨some payload, none⟩,
      .resp true "application/zip" "attachment; filename=\"f.zip\"" chunks⟩
      = .success "f.zip" (joinChunks chunks) := by
  refine ⟨?_, ?_, ?_⟩
  · have hlist : ("attachment; filename=\"" ++ v ++ "\"" ++ t).data
        = dispPre ++ (filenameKey ++ ('"' :: (v.data ++ ('"' :: t.data)))) := by
      rw [String.data_append, String.data_append, String.data_append,
        show ("attachment; filename=\"").data = dispPre ++ (filenameKey ++ ['"']) from
          by decide,
        show ("\"").data = ['"'] from by decide]
      simp [List.append_assoc]
    unfold _extract_filename
    rw [toList_eq_data, hlist, search_quoted v.data t.data hsemi ht]
    show some (String.mk (pyStrip (fun c => c == '"')
      (pyStrip isPySpace ('"' :: (v.data ++ ['"']))))) = some v
    rw [strip_quoted v.data hne hq hsp, mk_data]
  · have hlist : ("attachment; filename=" ++ v ++ t).data
        = dispPre ++ (filenameKey ++ (v.data ++ t.data)) := by
      rw [String.data_append, String.data_append,
        show ("attachment; filename=").data = dispPre ++ filenameKey from by decide]
      simp [List.append_assoc]
    unfold _extract_filename
    rw [toList_eq_data, hlist, search_unquoted v.data t.data hne hsemi ht]
    show some (String.mk (pyStrip (fun c => c == '"') (pyStrip isPySpace v.data))) = some v
    rw [strip_plain v.data hq hsp, mk_data]
  · have hparse : _extract_filename "attachment; filename=\"f.zip\"" = some "f.zip" := by
      decide
    simp [_fetch_zip, fetchPost, hparse,
      show pyIn "html" (pyLower "application/zip") = false from by decide,
      show pyIn "zip" (pyLower "attachment; filename=\"f.zip\"") = true from by decide,
      show String.isEmpty "f.zip" = false from by decide]

/-- Witness for C4 at `v = "f.zip"`, `t = "; charset=utf-8"`. -/
theorem c4_extract_filename_and_save_witness :
    _extract_filename ("attachment; filename=\"" ++ "f.zip" ++ "\"" ++ "; charset=utf-8")
      = some "f.zip"
  ∧ _extract_filename ("attachment; filename=" ++ "f.zip" ++ "; charset=utf-8")
      = some "f.zip"
  ∧ _fetch_zip ⟨.page true ⟨some [("tk", "x")], none⟩,
      .resp true "application/zip" "attachment; filename=\"f.zip\"" ["PK", "data"]⟩
      = .success "f.zip" (joinChunks ["PK", "data"]) :=
  c4_extract_filename_and_save "f.zip" "; charset=utf-8" ["PK", "data"] [("tk", "x")]
    (by decide) (by decide) (by decide) (by decide)
    (Or.inr ⟨(" charset=utf-8").data, by decide⟩)

/-! Model of `_extract_zip`. The destination directory is a flat list of
file names; the archive path lives in the same namespace (in the orchestrator
the archive is written inside the destination). -/

/-- What `zipfile.ZipFile(zip_path)` finds: a corrupt archive
(`BadZipFile` on open) or a well-formed one with the given member names. -/
inductive ZipContent
  | corrupt
  | wellFormed (members : List String)
deriving DecidableEq

/-- Behaviour of `zf.extractall(dest)` on a well-formed archive: normal
completion, or an exception (e.g. `OSError`) after extracting only some of
the members. -/
inductive ExtractallOutcome
  | ok
  | raises (partialMembers : List String)
deriving DecidableEq

/-- Oracle for one `_extract_zip` call: the archive's content, the
`extractall` behaviour, and which `txt.unlink()` calls raise `OSError`. -/
structure ExtractEnv where
  content : ZipContent
  extractall : ExtractallOutcome
  unlinkFails : String → Bool

/-- Observable result of `_extract_zip`: the destination's files, whether an
exception escaped, whether the corrupt-archive error was logged, and which
auxiliary files produced deletion warnings. -/
structure ExtractResult where
  fs : List String
  raised : Bool
  errorLogged : Bool
  warnLogged : List String

/-- `zf.extractall(dest)`: the members appear in the destination,
overwriting same-named files. -/
def addFiles (fs new : List String) : List String :=
  fs.filter (fun f => !(new.contains f)) ++ new

/-- `path.unlink(missing_ok=True)`. -/
def unlink (fs : List String) (p : String) : List String :=
  fs.filter (fun f => f != p)

/-- `_extract_zip(zip_path, dest)` under oracle `env`, starting from the
files `fs`. -/
def _extract_zip (fs : List String) (zip_path : String) (env : ExtractEnv) :
    ExtractResult :=
  match env.content with
  | .corrupt =>
    { fs := unlink (unlink fs zip_path) zip_path
      raised := false
      errorLogged := true
      warnLogged := [] }
  | .wellFormed members =>
    match env.extractall with
    | .raises partialMembers =>
      { fs := unlink (addFiles fs partialMembers) zip_path
        raised := true
        errorLogged := false
        warnLogged := [] }
    | .ok =>
      let fs1 := unlink (addFiles fs members) zip_path
      { fs := fs1.filter (fun f => !(pyEndsWith f ".txt" && !(env.unlinkFails f)))
        raised := false
        errorLogged := false
        warnLogged := (fs1.filter (fun f => pyEndsWith f ".txt")).filter env.unlinkFails }

lemma not_mem_unlink (fs : List String) (p : String) : p ∉ unlink fs p := by
  simp [unlink, List.mem_filter]

lemma unlink_unlink (fs : List String) (p : String) :
    unlink (unlink fs p) p = unlink fs p := by
  simp [unlink, List.filter_filter]

lemma mem_addFiles_right (fs new : List String) (f : String) (h : f ∈ new) :
    f ∈ addFiles fs new := by
  simp [addFiles, h]

/-- On every exit path of `_extract_zip` the archive itself is gone. -/
lemma zip_path_not_mem (fs : List String) (zip_path : String) (env : ExtractEnv) :
    zip_path ∉ (_extract_zip fs zip_path env).fs := by
  rcases env with ⟨content, ea, uf⟩
  cases content with
  | corrupt => exact not_mem_unlink _ _
  | wellFormed members =>
    cases ea with
    | raises pm => exact not_mem_unlink _ _
    | ok =>
      intro hmem
      exact not_mem_unlink _ _ (List.mem_filter.mp hmem).1

/-- Claim C5: on every exit path of `_extract_zip` (successful extraction,
corrupt archive, exception during extraction) the archive file no longer
exists afterwards; and on a corrupt archive the call does not raise, logs
the error, skips extraction and leaves no partial output (the destination is
unchanged apart from the archive's removal). -/
theorem c5_extract_zip_archive_removed (fs : List String) (zip_path : String)
    (env : ExtractEnv) :
    zip_path ∉ (_extract_zip fs zip_path env).fs
  ∧ (env.content = .corrupt →
      (_extract_zip fs zip_path env).raised = false
      ∧ (_extract_zip fs zip_path env).errorLogged = true
      ∧ (_extract_zip fs zip_path env).fs = unlink fs zip_path) := by
  constructor
  · exact zip_path_not_mem fs zip_path env
  · intro hc
    rcases env with ⟨content, ea, uf⟩
    cases hc
    exact ⟨rfl, rfl, unlink_unlink fs zip_path⟩

/-- Witness for C5: a corrupt archive next to an unrelated file. -/
theorem c5_extract_zip_archive_removed_witness :
    "a.zip" ∉ (_extract_zip ["a.zip", "keep.txt"] "a.zip"
      ⟨.corrupt, .ok, fun _ => false⟩).fs
  ∧ ((_extract_zip ["a.zip", "keep.txt"] "a.zip" ⟨.corrupt, .ok, fun _ => false⟩).raised
        = false
      ∧ (_extract_zip ["a.zip", "keep.txt"] "a.zip"
          ⟨.corrupt, .ok, fun _ => false⟩).errorLogged = true
      ∧ (_extract_zip ["a.zip", "keep.txt"] "a.zip" ⟨.corrupt, .ok, fun _ => false⟩).fs
          = unlink ["a.zip", "keep.txt"] "a.zip") :=
  ⟨(c5_extract_zip_archive_removed ["a.zip", "keep.txt"] "a.zip"
      ⟨.corrupt, .ok, fun _ => false⟩).1,
   (c5_extract_zip_archive_removed ["a.zip", "keep.txt"] "a.zip"
      ⟨.corrupt, .ok, fun _ => false⟩).2 rfl⟩

/-- Claim C6: extracting a well-formed archive holding one data file and one
auxiliary `.txt` file leaves the data file in the destination, removes the
`.txt` file (a deletion failure is only logged as a warning and does not
abort), and removes the archive itself. -/
theorem c6_extract_zip_wellformed (fs : List String) (zip_path dataFile txtFile : String)
    (env : ExtractEnv)
    (hcontent : env.content = .wellFormed [dataFile, txtFile])
    (hok : env.extractall = .ok)
    (hdata : pyEndsWith dataFile ".txt" = false)
    (htxt : pyEndsWith txtFile ".txt" = true)
    (hdz : dataFile ≠ zip_path)
    (htz : txtFile ≠ zip_path) :
    dataFile ∈ (_extract_zip fs zip_path env).fs
  ∧ (env.unlinkFails txtFile = false → txtFile ∉ (_extract_zip fs zip_path env).fs)
  ∧ zip_path ∉ (_extract_zip fs zip_path env).fs
  ∧ (_extract_zip fs zip_path env).raised = false
  ∧ (env.unlinkFails txtFile = true →
      txtFile ∈ (_extract_zip fs zip_path env).warnLogged
      ∧ (_extract_zip fs zip_path env).raised = false) := by
  rcases env with ⟨content, ea, uf⟩
  cases hcontent
  cases hok
  have hd1 : dataFile ∈ unlink (addFiles fs [dataFile, txtFile]) zip_path := by
    simp only [unlink, List.mem_filter]
    exact ⟨mem_addFiles_right _ _ _ (by simp), bne_iff_ne.mpr hdz⟩
  have ht1 : txtFile ∈ unlink (addFiles fs [dataFile, txtFile]) zip_path := by
    simp only [unlink, List.mem_filter]
    exact ⟨mem_addFiles_right _ _ _ (by simp), bne_iff_ne.mpr htz⟩
  refine ⟨?_, ?_, ?_, rfl, ?_⟩
  · simp only [_extract_zip, List.mem_filter]
    exact ⟨hd1, by simp [hdata]⟩
  · intro huf hmem
    have hkept := (List.mem_filter.mp hmem).2
    have huf' : uf txtFile = false := huf
    simp [htxt, huf'] at hkept
  · exact zip_path_not_mem fs zip_path ⟨.wellFormed [dataFile, txtFile], .ok, uf⟩
  · intro huf
    refine ⟨?_, rfl⟩
    simp only [_extract_zip, List.mem_filter]
    exact ⟨⟨ht1, htxt⟩, huf⟩

/-- Witness for C6: archive `t.zip` holding `f.csv` and `f.txt` (and, for
the warning branch, a run in which every `txt.unlink()` raises). -/
theorem c6_extract_zip_wellformed_witness :
    "f.csv" ∈ (_extract_zip ["t.zip"] "t.zip"
      ⟨.wellFormed ["f.csv", "f.txt"], .ok, fun _ => false⟩).fs
  ∧ "f.txt" ∉ (_extract_zip ["t.zip"] "t.zip"
      ⟨.wellFormed ["f.csv", "f.txt"], .ok, fun _ => false⟩).fs
  ∧ "t.zip" ∉ (_extract_zip ["t.zip"] "t.zip"
      ⟨.wellFormed ["f.csv", "f.txt"], .ok, fun _ => false⟩).fs
  ∧ (_extract_zip ["t.zip"] "t.zip"
      ⟨.wellFormed ["f.csv", "f.txt"], .ok, fun _ => false⟩).raised = false
  ∧ ("f.txt" ∈ (_extract_zip ["t.zip"] "t.zip"
        ⟨.wellFormed ["f.csv", "f.txt"], .ok, fun _ => true⟩).warnLogged
      ∧ (_extract_zip ["t.zip"] "t.zip"
          ⟨.wellFormed ["f.csv", "f.txt"], .ok, fun _ => true⟩).raised = false) :=
  ⟨(c6_extract_zip_wellformed ["t.zip"] "t.zip" "f.csv" "f.txt"
      ⟨.wellFormed ["f.csv", "f.txt"], .ok, fun _ => false⟩
      rfl rfl (by decide) (by decide) (by decide) (by decide)).1,
   (c6_extract_zip_wellformed ["t.zip"] "t.zip" "f.csv" "f.txt"
      ⟨.wellFormed ["f.csv", "f.txt"], .ok, fun _ => false⟩
      rfl rfl (by decide) (by decide) (by decide) (by decide)).2.1 rfl,
   (c6_extract_zip_wellformed ["t.zip"] "t.zip" "f.csv" "f.txt"
      ⟨.wellFormed ["f.csv", "f.txt"], .ok, fun _ => false⟩
      rfl rfl (by decide) (by decide) (by decide) (by decide)).2.2.1,
   (c6_extract_zip_wellformed ["t.zip"] "t.zip" "f.csv" "f.txt"
      ⟨.wellFormed ["f.csv", "f.txt"], .ok, fun _ => false⟩
      rfl rfl (by decide) (by decide) (by decide) (by decide)).2.2.2.1,
   (c6_extract_zip_wellformed ["t.zip"] "t.zip" "f.csv" "f.txt"
      ⟨.wellFormed ["f.csv", "f.txt"], .ok, fun _ => true⟩
      rfl rfl (by decide) (by decide) (by decide) (by decide)).2.2.2.2 rfl⟩

/-- Claim C10: after a successful extraction every `*.txt` file whose
deletion succeeds is removed from the destination, pre-existing ones
included; on the corrupt-archive path the cleanup is skipped entirely and
every file other than the archive (in particular every `.txt` file) is left
unchanged. -/
theorem c10_txt_cleanup (fs : List String) (zip_path : String) (env : ExtractEnv) :
    (∀ members, env.content = .wellFormed members → env.extractall = .ok →
      ∀ f, pyEndsWith f ".txt" = true → env.unlinkFails f = false →
        f ∉ (_extract_zip fs zip_path env).fs)
  ∧ (env.content = .corrupt →
      ∀ f, f ≠ zip_path → (f ∈ (_extract_zip fs zip_path env).fs ↔ f ∈ fs)) := by
  constructor
  · intro members hcontent hok f htxt huf hmem
    rcases env with ⟨content, ea, uf⟩
    cases hcontent
    cases hok
    have hkept := (List.mem_filter.mp hmem).2
    have huf' : uf f = false := huf
    simp [htxt, huf'] at hkept
  · intro hc f hf
    rcases env with ⟨content, ea, uf⟩
    cases hc
    show f ∈ unlink (unlink fs zip_path) zip_path ↔ f ∈ fs
    rw [unlink_unlink]
    simp [unlink, List.mem_filter, bne_iff_ne, hf]

/-- Witness for C10: a pre-existing `old.txt` is deleted on success; on a
corrupt archive a pre-existing `k.txt` is untouched. -/
theorem c10_txt_cleanup_witness :
    "old.txt" ∉ (_extract_zip ["z.zip", "old.txt"] "z.zip"
      ⟨.wellFormed ["d.csv"], .ok, fun _ => false⟩).fs
  ∧ ("k.txt" ∈ (_extract_zip ["z.zip", "k.txt"] "z.zip"
      ⟨.corrupt, .ok, fun _ => false⟩).fs ↔ "k.txt" ∈ ["z.zip", "k.txt"]) :=
  ⟨(c10_txt_cleanup ["z.zip", "old.txt"] "z.zip"
      ⟨.wellFormed ["d.csv"], .ok, fun _ => false⟩).1
      ["d.csv"] rfl rfl "old.txt" (by decide) rfl,
   (c10_txt_cleanup ["z.zip", "k.txt"] "z.zip"
      ⟨.corrupt, .ok, fun _ => false⟩).2 rfl "k.txt" (by decide)⟩

/-! Model of the orchestrator `download_histdata`. Fetching is the oracle
`fetchR` (the outcome of `_fetch_zip` for each period); the run is observed
as its sequence of fetch and extraction events. -/

/-- One observable step of a `download_histdata` run. -/
inductive RunEvent
  | fetch (period : Nat × Nat)
  | extract (zipPath : String)
deriving DecidableEq

/-- The `for y, m in _year_month_range(...)` loop body: fetch the period;
exactly when the fetch returns a path, extract it immediately. -/
def runLoop (fetchR : Nat × Nat → Option String) : List (Nat × Nat) → List RunEvent
  | [] => []
  | p :: ps =>
    match fetchR p with
    | some z => .fetch p :: .extract z :: runLoop fetchR ps
    | none => .fetch p :: runLoop fetchR ps

/-- `download_histdata(symbol, start, end, dest)` under fetch oracle
`fetchR`: the events the run performs, in order. -/
def download_histdata (fetchR : Nat × Nat → Option String) (s e : PyDateTime) :
    List RunEvent :=
  runLoop fetchR (_year_month_range s e)

/-- The period of a fetch event. -/
def fetchEv : RunEvent → Option (Nat × Nat)
  | .fetch p => some p
  | _ => none

/-- The archive path of an extraction event. -/
def extractEv : RunEvent → Option String
  | .extract z => some z
  | _ => none

/-- Spec-side block of events for one period: its fetch, immediately
followed by exactly one extraction when and only when the fetch succeeded. -/
def perPeriodEvents (fetchR : Nat × Nat → Option String) (p : Nat × Nat) :
    List RunEvent :=
  .fetch p :: (match fetchR p with
    | some z => [RunEvent.extract z]
    | none => [])

lemma runLoop_eq_flatMap (fetchR : Nat × Nat → Option String) (ps : List (Nat × Nat)) :
    runLoop fetchR ps = ps.flatMap (perPeriodEvents fetchR) := by
  induction ps with
  | nil => rfl
  | cons p ps ih =>
    cases hf : fetchR p <;> simp [runLoop, perPeriodEvents, hf, ih]

lemma runLoop_fetches (fetchR : Nat × Nat → Option String) (ps : List (Nat × Nat)) :
    (runLoop fetchR ps).filterMap fetchEv = ps := by
  induction ps with
  | nil => rfl
  | cons p ps ih =>
    cases hf : fetchR p <;> simp [runLoop, hf, List.filterMap_cons, fetchEv, extractEv, ih]

lemma runLoop_extracts (fetchR : Nat × Nat → Option String) (ps : List (Nat × Nat)) :
    (runLoop fetchR ps).filterMap extractEv = ps.filterMap fetchR := by
  induction ps with
  | nil => rfl
  | cons p ps ih =>
    cases hf : fetchR p <;>
      simp [runLoop, hf, List.filterMap_cons, fetchEv, extractEv, ih]

/-- Claim C7: `download_histdata` processes the enumerated periods strictly
one at a time in order; each period is fetched exactly once (a failure never
aborts the run and is not retried), and extraction happens exactly once,
immediately after each successful fetch and never for a failed one. In the
two-period scenario where only the second fetch succeeds, exactly one
extraction occurs, of the single archive ever written. -/
theorem c7_download_histdata_sequencing (fetchR : Nat × Nat → Option String)
    (s e : PyDateTime) (z : String)
    (h4 : fetchR (2020, 4) = none) (h5 : fetchR (2020, 5) = some z) :
    download_histdata fetchR s e = (_year_month_range s e).flatMap (perPeriodEvents fetchR)
  ∧ (download_histdata fetchR s e).filterMap fetchEv = _year_month_range s e
  ∧ (download_histdata fetchR s e).filterMap extractEv
      = (_year_month_range s e).filterMap fetchR
  ∧ download_histdata fetchR ⟨2020, 4, 1⟩ ⟨2020, 5, 31⟩
      = [.fetch (2020, 4), .fetch (2020, 5), .extract z] := by
  refine ⟨runLoop_eq_flatMap fetchR _, runLoop_fetches fetchR _, runLoop_extracts fetchR _, ?_⟩
  have hper : _year_month_range ⟨2020, 4, 1⟩ ⟨2020, 5, 31⟩ = [(2020, 4), (2020, 5)] := by
    decide
  rw [download_histdata, hper]
  simp [runLoop, h4, h5]

/-- Witness for C7: the oracle failing on 2020-04 and succeeding on 2020-05. -/
theorem c7_download_histdata_sequencing_witness :
    download_histdata (fun p => if p = (2020, 5) then some "x.zip" else none)
        ⟨2020, 4, 1⟩ ⟨2020, 5, 31⟩
      = (_year_month_range ⟨2020, 4, 1⟩ ⟨2020, 5, 31⟩).flatMap
          (perPeriodEvents (fun p => if p = (2020, 5) then some "x.zip" else none))
  ∧ (download_histdata (fun p => if p = (2020, 5) then some "x.zip" else none)
        ⟨2020, 4, 1⟩ ⟨2020, 5, 31⟩).filterMap fetchEv
      = _year_month_range ⟨2020, 4, 1⟩ ⟨2020, 5, 31⟩
  ∧ (download_histdata (fun p => if p = (2020, 5) then some "x.zip" else none)
        ⟨2020, 4, 1⟩ ⟨2020, 5, 31⟩).filterMap extractEv
      = (_year_month_range ⟨2020, 4, 1⟩ ⟨2020, 5, 31⟩).filterMap
          (fun p => if p = (2020, 5) then some "x.zip" else none)
  ∧ download_histdata (fun p => if p = (2020, 5) then some "x.zip" else none)
        ⟨2020, 4, 1⟩ ⟨2020, 5, 31⟩
      = [.fetch (2020, 4), .fetch (2020, 5), .extract "x.zip"] :=
  c7_download_histdata_sequencing (fun p => if p = (2020, 5) then some "x.zip" else none)
    ⟨2020, 4, 1⟩ ⟨2020, 5, 31⟩ "x.zip" (by decide) (by decide)

/-! Model of the staging-directory guard `_ensure_tmp_dir`. -/

/-- Observable outcome: a returned path (with whether it was created), or a
`sys.exit` aborting the run. -/
inductive TmpDirOutcome
  | ret (path : String) (created : Bool)
  | exitConfigError
  | exitAborted
deriving DecidableEq

/-- Oracle for one `_ensure_tmp_dir` call: the configured path, what the
filesystem says about it, and the operator's `input(...)` answer. -/
structure TmpEnv where
  tmp : String
  pathExists : Bool
  isDir : Bool
  answer : String

/-- `_ensure_tmp_dir()` under oracle `env`. -/
def _ensure_tmp_dir (env : TmpEnv) : TmpDirOutcome :=
  if env.pathExists then
    if env.isDir then .ret env.tmp false
    else .exitConfigError
  else
    let ans := pyLower (pyStripWs env.answer)
    if ¬ (ans = "y" ∨ ans = "yes") then .exitAborted
    else .ret env.tmp true

/-- Claim C8: the staging-directory guard returns the configured path
unchanged when it exists as a directory; exits the run when it exists but is
not a directory; and when it does not exist, asks the operator — a declining
answer aborts the run, an accepting answer (`y`/`yes`, case- and
whitespace-insensitively) creates the directory and returns it. -/
theorem c8_ensure_tmp_dir (env : TmpEnv) :
    (env.pathExists = true → env.isDir = true →
      _ensure_tmp_dir env = .ret env.tmp false)
  ∧ (env.pathExists = true → env.isDir = false →
      _ensure_tmp_dir env = .exitConfigError)
  ∧ (env.pathExists = false →
      ¬ (pyLower (pyStripWs env.answer) = "y" ∨ pyLower (pyStripWs env.answer) = "yes") →
      _ensure_tmp_dir env = .exitAborted)
  ∧ (env.pathExists = false →
      (pyLower (pyStripWs env.answer) = "y" ∨ pyLower (pyStripWs env.answer) = "yes") →
      _ensure_tmp_dir env = .ret env.tmp true) := by
  refine ⟨?_, ?_, ?_, ?_⟩ <;> intro h1 h2 <;> simp [_ensure_tmp_dir, h1, h2]

/-- Witness for C8: path missing, operator answers `" Y "`. -/
theorem c8_ensure_tmp_dir_witness :
    _ensure_tmp_dir ⟨"/data/tmp", false, false, " Y "⟩ = .ret "/data/tmp" true :=
  (c8_ensure_tmp_dir ⟨"/data/tmp", false, false, " Y "⟩).2.2.2 rfl (Or.inl (by decide))

/-! Model of the lazily-initialised HTTP session singleton. -/

/-- An HTTP client object: an identity plus its request headers. -/
structure Session where
  sid : Nat
  headers : List (String × String)
deriving DecidableEq

/-- The module constant `HEADERS`. -/
def HEADERS : List (String × String) :=
  [("User-Agent",
    "Mozilla/5.0 (X11; Linux x86_64) AppleWebKit/537.36 (KHTML, like Gecko) Chrome/136.0.0.0 Safari/537.36"),
   ("Accept",
    "text/html,application/xhtml+xml,application/xml;q=0.9,*/*;q=0.8")]

/-- `dict.update`: entries of `upd` override same-keyed entries of `old`. -/
def dictUpdate (old upd : List (String × String)) : List (String × String) :=
  old.filter (fun kv => !(upd.any (fun kv2 => kv2.1 == kv.1))) ++ upd

/-- Header lookup. -/
def lookupHeader (k : String) (hs : List (String × String)) : Option String :=
  (hs.find? (fun kv => kv.1 == k)).map (fun kv => kv.2)

/-- One `_session()` call, as a step on the module global `_SESSION`:
`fresh` is the `requests.Session()` the constructor would produce if the
global is still `None`. Returns the session handed to the caller and the
new global state. -/
def _session (st : Option Session) (fresh : Session) : Session × Option Session :=
  match st with
  | none =>
    let s := { fresh with headers := dictUpdate fresh.headers HEADERS }
    (s, some s)
  | some s => (s, some s)

/-- The sessions returned by `n` successive `_session()` calls starting from
state `st`; the `i`-th call's would-be fresh client is `freshes i`. -/
def sessionCalls : Nat → Option Session → (Nat → Session) → List Session
  | 0, _, _ => []
  | n + 1, st, freshes =>
    (_session st (freshes 0)).1 ::
      sessionCalls n (_session st (freshes 0)).2 (fun i => freshes (i + 1))

lemma sessionCalls_some (n : Nat) : ∀ (s : Session) (freshes : Nat → Session),
    sessionCalls n (some s) freshes = List.replicate n s := by
  induction n with
  | zero => intro s freshes; rfl
  | succ m ih =>
    intro s freshes
    simp only [sessionCalls, _session, List.replicate_succ]
    exact congrArg (s :: ·) (ih s _)

/-- Claim C9: the HTTP session is a lazily-initialised process-wide
singleton: starting from the initial empty state, every one of `n`
successive `_session()` calls returns the very session created by the first
call (the state is never reset), and that session's headers carry the fixed
`User-Agent` and `Accept` values of `HEADERS`. -/
theorem c9_session_singleton (n : Nat) (freshes : Nat → Session) :
    sessionCalls n none freshes = List.replicate n (_session none (freshes 0)).1
  ∧ lookupHeader "User-Agent" (_session none (freshes 0)).1.headers
      = some "Mozilla/5.0 (X11; Linux x86_64) AppleWebKit/537.36 (KHTML, like Gecko) Chrome/136.0.0.0 Safari/537.36"
  ∧ lookupHeader "Accept" (_session none (freshes 0)).1.headers
      = some "text/html,application/xhtml+xml,application/xml;q=0.9,*/*;q=0.8" := by
  have hua : ∀ hs : List (String × String),
      List.find? (fun kv => kv.1 == "User-Agent")
        (hs.filter (fun kv => !(HEADERS.any (fun kv2 => kv2.1 == kv.1)))) = none := by
    intro hs
    rw [List.find?_eq_none]
    intro kv hkv hbeq
    have hk : kv.1 = "User-Agent" := by simpa using hbeq
    have := (List.mem_filter.mp hkv).2
    simp [HEADERS, hk] at this
  have hac : ∀ hs : List (String × String),
      List.find? (fun kv => kv.1 == "Accept")
        (hs.filter (fun kv => !(HEADERS.any (fun kv2 => kv2.1 == kv.1)))) = none := by
    intro hs
    rw [List.find?_eq_none]
    intro kv hkv hbeq
    have hk : kv.1 = "Accept" := by simpa using hbeq
    have := (List.mem_filter.mp hkv).2
    simp [HEADERS, hk] at this
  refine ⟨?_, ?_, ?_⟩
  · cases n with
    | zero => rfl
    | succ m =>
      simp only [sessionCalls, List.replicate_succ]
      exact congrArg (_ :: ·) (sessionCalls_some m _ _)
  · show lookupHeader "User-Agent" (dictUpdate (freshes 0).headers HEADERS) = _
    rw [lookupHeader, dictUpdate, List.find?_append, hua ((freshes 0).headers)]
    rfl
  · show lookupHeader "Accept" (dictUpdate (freshes 0).headers HEADERS) = _
    rw [lookupHeader, dictUpdate, List.find?_append, hac ((freshes 0).headers)]
    rfl

end ElpisDownloader
